import Mathlib

/-!
Verification of the uncertainty-rounding and Student-t aggregation core of
the labtool repository.

Numbers are embedded as exact rationals (`ℚ`).  Python's `round(x, n)`
(round-half-to-even) is embedded as `pyRound`, `math.ceil` as `Int.ceil`,
`math.floor (math.log10 x)` (the `uncertainties.core.first_digit` helper)
as `Int.log 10`.

The embedded functions:
* `_digits_exponent_std_dev`, `EPM_precision`, `round_n_s`
  from `src/monkeypatch_uncertainties.py`;
* `t_df_1`/`t_df_2`/`t_df_3` (the class attribute `Student.t_df`),
  `t_lookup` (the `t_df.loc[len(series), str(sigma)]` access with its
  `KeyError → sigma` fallback), `studentMk`/`Student`
  (`classes.Student.__init__`), and `studentArrayMk`/`StudentArray`
  (`classes.StudentArray.__init__`) from `src/classes.py`.

Third-party routines called by the source (numpy `mean`, `scipy.stats.sem`,
the stock `uncertainties.ufloat` constructor) are not part of the
repository; they are modelled from the spec where marked.
-/

/-- Python's built-in `round` to an integer: round-half-to-even
(banker's rounding).  Away from exact halves this is rounding to the
nearest integer; at an exact half it rounds to the even neighbour. -/
def pyRoundInt (x : ℚ) : ℤ :=
  if Int.fract x = 1 / 2 then 2 * round (x / 2) else round x

/-- Python's `round(x, ndigits)`: round-half-to-even at decimal position
`ndigits` (which may be negative, as in `round(x, -exponent)`). -/
def pyRound (x : ℚ) (ndigits : ℤ) : ℚ :=
  (pyRoundInt (x * 10 ^ ndigits) : ℚ) / 10 ^ ndigits

/-- `uncertainties.core.first_digit`: `int(floor(log10(abs(value))))`,
with `0` returned for `value = 0` (the `ValueError` branch). -/
def first_digit (value : ℚ) : ℤ :=
  if value = 0 then 0 else Int.log 10 |value|

/-- `_digits_exponent_std_dev` from `src/monkeypatch_uncertainties.py`:
returns `(sig_digits, exponent, s)` where `s` is the effective (rounded)
standard deviation.  For nonzero input: take the base-10 exponent of the
leading digit, round the mantissa to 3 decimals, use two significant
digits when that mantissa is `≤ 1.9` (decrementing the exponent and
scaling the mantissa by 10), then round up with `ceil`. -/
def _digits_exponent_std_dev (std_dev : ℚ) : ℤ × ℤ × ℚ :=
  if std_dev ≠ 0 then
    let exponent := first_digit std_dev
    let mantissa := pyRound (std_dev * 10 ^ (-exponent)) 3
    if mantissa ≤ 1.9 then
      (2, exponent - 1, (⌈mantissa * 10⌉ : ℚ) * 10 ^ (exponent - 1))
    else
      (1, exponent, (⌈mantissa⌉ : ℚ) * 10 ^ exponent)
  else
    (0, 0, 0)

/-- The number of significant digits selected by `_digits_exponent_std_dev`. -/
def EPM_digits (std_dev : ℚ) : ℤ := (_digits_exponent_std_dev std_dev).1

/-- The rounding exponent selected by `_digits_exponent_std_dev`. -/
def EPM_exponent (std_dev : ℚ) : ℤ := (_digits_exponent_std_dev std_dev).2.1

/-- The effective (ceiling-rounded) standard deviation returned by
`_digits_exponent_std_dev`. -/
def EPM_s (std_dev : ℚ) : ℚ := (_digits_exponent_std_dev std_dev).2.2

/-- `EPM_precision` from `display()` in `src/monkeypatch_uncertainties.py`:
the pair `(dig, s)` obtained by dropping the exponent from
`_digits_exponent_std_dev`. -/
def EPM_precision (std_dev : ℚ) : ℤ × ℚ :=
  (EPM_digits std_dev, EPM_s std_dev)

/-- `round_n_s` from `init()` in `src/monkeypatch_uncertainties.py`:
round a nominal value and standard deviation according to EPM.  The
nominal value is rounded to `-exponent` decimal places unless the
effective standard deviation is zero, in which case it is left as is. -/
def round_n_s (nominal_value : ℚ) (std_dev : ℚ) : ℚ × ℚ :=
  let r := _digits_exponent_std_dev std_dev
  ((if r.2.2 ≠ 0 then pyRound nominal_value (-r.2.1) else nominal_value), r.2.2)

/-- Column `"1"` of the class attribute `Student.t_df` in
`src/classes.py`, indexed by sample sizes `2..50`. -/
def t_df_1 : List ℚ :=
  [1.84, 1.32, 1.2, 1.15, 1.11, 1.09, 1.08, 1.07, 1.06, 1.051, 1.045, 1.04, 1.036,
   1.033, 1.032, 1.031, 1.03, 1.03, 1.03, 1.03, 1.029, 1.028, 1.027, 1.026, 1.025,
   1.024, 1.022, 1.021, 1.02, 1.019, 1.018, 1.017, 1.016, 1.016, 1.015, 1.014, 1.014,
   1.013, 1.013, 1.012, 1.012, 1.012, 1.011, 1.011, 1.011, 1.011, 1.01, 1.01, 1.01]

/-- Column `"2"` of `Student.t_df` in `src/classes.py`. -/
def t_df_2 : List ℚ :=
  [13.97, 4.53, 3.31, 2.87, 2.65, 2.53, 2.43, 2.364, 2.32, 2.285, 2.255, 2.23, 2.209,
   2.191, 2.177, 2.165, 2.155, 2.147, 2.14, 2.133, 2.127, 2.121, 2.116, 2.111, 2.106,
   2.102, 2.097, 2.094, 2.09, 2.087, 2.083, 2.08, 2.078, 2.075, 2.072, 2.07, 2.068,
   2.066, 2.064, 2.062, 2.06, 2.059, 2.057, 2.056, 2.055, 2.053, 2.052, 2.051, 2.05]

/-- Column `"3"` of `Student.t_df` in `src/classes.py`. -/
def t_df_3 : List ℚ :=
  [235.8, 19.21, 9.22, 6.62, 5.51, 5.02, 4.53, 4.31, 4.09, 4.026, 3.962, 3.898, 3.834,
   3.77, 3.706, 3.642, 3.578, 3.514, 3.45, 3.433, 3.416, 3.399, 3.382, 3.365, 3.348,
   3.331, 3.314, 3.297, 3.28, 3.274, 3.268, 3.262, 3.256, 3.25, 3.244, 3.238, 3.232,
   3.226, 3.22, 3.214, 3.208, 3.202, 3.196, 3.19, 3.184, 3.178, 3.172, 3.166, 3.16]

/-- The column of `Student.t_df` selected by `str(sigma)`. -/
def t_df_col (sigma : ℕ) : List ℚ :=
  if sigma = 1 then t_df_1 else if sigma = 2 then t_df_2 else t_df_3

/-- The `try: self.t_df.loc[len(series), str(sigma)] except KeyError: sigma`
access in `Student.__init__` (`src/classes.py`): `t_df` is indexed by
`2..50`, so any sample size outside that range raises `KeyError` and the
t-factor falls back to `sigma` itself. -/
def t_lookup (n : ℕ) (sigma : ℕ) : ℚ :=
  if 2 ≤ n ∧ n ≤ 50 then (t_df_col sigma).getD (n - 2) 0 else (sigma : ℚ)

/-- Modelled from the spec: `numpy.mean`, external to the repository —
the arithmetic mean of the series. -/
def np_mean (xs : List ℚ) : ℚ := xs.sum / xs.length

/-- Sum of squared deviations from the mean (the numerator of the sample
variance). -/
def ssq (xs : List ℚ) : ℚ := (xs.map (fun x => (x - np_mean xs) ^ 2)).sum

/-- Modelled from the spec: `scipy.stats.sem`, external to the repository —
the standard error of the mean, `sample standard deviation (divisor n-1)
divided by sqrt n`, i.e. the square root of `ssq / ((n-1)·n)`; a series of
length 1 yields `0` by the spec's convention.  The square root is taken by
`Rat.sqrt`, which is exact on the perfect rational squares arising at
every concrete series used below. -/
def scipy_sem (xs : List ℚ) : ℚ :=
  if xs.length ≤ 1 then 0
  else Rat.sqrt (ssq xs / (((xs.length - 1 : ℕ) : ℚ) * (xs.length : ℚ)))

/-- The value type of the third-party `uncertainties` package: a nominal
value `n` paired with a standard deviation `s`. -/
structure UFloat where
  n : ℚ
  s : ℚ
deriving DecidableEq, Repr

/-- Modelled from the spec: the stock `uncertainties.ufloat` constructor,
external to the repository.  Since `monkeypatch_uncertainties.init()` is
commented out in `src/__init__.py`, the constructor in effect is the stock
one, which stores the nominal value and standard deviation unchanged
(no rounding at construction). -/
def ufloat (value : ℚ) (std_dev : ℚ) : UFloat := ⟨value, std_dev⟩

/-- Modelled from the spec: the display path of an `UFloat`.  With
`monkeypatch_uncertainties.display()` applied at import, formatting uses
`EPM_precision`, so the displayed pair is the stored fields rounded by the
EPM convention — exactly `round_n_s` applied to the stored fields. -/
def displayed (v : UFloat) : ℚ × ℚ := round_n_s v.n v.s

/-- The attributes of `classes.Student` (`src/classes.py`): the t-factor
`t`, the raw `series`, the precise mean `_n` and SEM `_s`, the `ufloat`
`mean` together with its convenience accessors `n` and `s`, and the flag
`_factor_used`. -/
structure StudentT where
  t : ℚ
  series : List ℚ
  _n : ℚ
  _s : ℚ
  mean : UFloat
  n : ℚ
  s : ℚ
  _factor_used : Bool
deriving DecidableEq, Repr

/-- The body of `Student.__init__` (`src/classes.py`) after the sigma
check: look up the t-factor (with fallback), take the precise mean and
SEM, build `mean = ufloat(_n, t * _s)`, and set
`_factor_used = (s != _s)` where `s = mean.s`. -/
def studentMk (series : List ℚ) (sigma : ℕ) : StudentT :=
  let t := t_lookup series.length sigma
  let rawN := np_mean series
  let rawS := scipy_sem series
  let m := ufloat rawN (t * rawS)
  { t := t, series := series, _n := rawN, _s := rawS, mean := m,
    n := m.n, s := m.s, _factor_used := decide (m.s ≠ rawS) }

/-- `classes.Student`: `ValueError` for `sigma ∉ {1, 2, 3}` is modelled by
`none`; otherwise the constructed instance. -/
def Student (series : List ℚ) (sigma : ℕ) : Option StudentT :=
  if sigma = 1 ∨ sigma = 2 ∨ sigma = 3 then some (studentMk series sigma) else none

/-- The number of rows of the `DataFrame` built by
`StudentArray.__init__` from equal-length input series (each series
becomes one column, so the row count is the common series length). -/
def df_nrows (cols : List (List ℚ)) : ℕ := (cols.headD []).length

/-- Row `j` of the `DataFrame` whose columns are the input series: the
`j`-th entry of every column. -/
def df_row (cols : List (List ℚ)) (j : ℕ) : List ℚ :=
  cols.map (fun c => c.getD j 0)

/-- All rows of the `DataFrame` built from the input series. -/
def df_rows (cols : List (List ℚ)) : List (List ℚ) :=
  (List.range (df_nrows cols)).map (df_row cols)

/-- The body of `StudentArray.__init__` (`src/classes.py`):
`raw_data.apply(lambda x: Student(x, sigma), axis=1)` constructs one
`Student` per row of the `DataFrame`, and `self.array` collects their
`mean` attributes. -/
def studentArrayMk (cols : List (List ℚ)) (sigma : ℕ) : List UFloat :=
  (df_rows cols).map (fun r => (studentMk r sigma).mean)

/-- `classes.StudentArray` on a table of equal-length columns: the
`ValueError` raised by the per-row `Student` calls for
`sigma ∉ {1, 2, 3}` is modelled by `none`. -/
def StudentArray (cols : List (List ℚ)) (sigma : ℕ) : Option (List UFloat) :=
  if sigma = 1 ∨ sigma = 2 ∨ sigma = 3 then some (studentArrayMk cols sigma) else none

/-- The `n` attribute of `StudentArray` (first component of
`separate_uarray(self.array)` in `src/functions.py`): the nominal values
of the per-row means. -/
def StudentArray_n (cols : List (List ℚ)) (sigma : ℕ) : Option (List ℚ) :=
  (StudentArray cols sigma).map (List.map UFloat.n)

/-- The `s` attribute of `StudentArray` (second component of
`separate_uarray(self.array)` in `src/functions.py`): the uncertainties
of the per-row means. -/
def StudentArray_s (cols : List (List ℚ)) (sigma : ℕ) : Option (List ℚ) :=
  (StudentArray cols sigma).map (List.map UFloat.s)

/-- The 20-element series of end-to-end scenario 1 (also used by
`tests/test_classes.py`). -/
def series20 : List ℚ :=
  [28.89, 28.85, 28.92, 28.93, 28.98, 28.90, 28.85, 28.98, 28.88, 28.91,
   28.84, 28.86, 28.90, 28.87, 28.86, 28.91, 28.93, 28.86, 28.89, 28.89]

/-! ### Evaluation helpers

`ℚ` equalities do not reduce in the kernel (rational normalization uses
`Nat.gcd`), so concrete values of the embedded functions are computed
through the following lemmas plus `norm_num`. -/

theorem floor_eval (x : ℚ) (m : ℤ) (h1 : (m : ℚ) ≤ x) (h2 : x < m + 1) :
    ⌊x⌋ = m :=
  Int.floor_eq_iff.mpr ⟨h1, h2⟩

theorem ceil_eval (x : ℚ) (m : ℤ) (h1 : (m : ℚ) - 1 < x) (h2 : x ≤ m) :
    ⌈x⌉ = m :=
  Int.ceil_eq_iff.mpr ⟨h1, h2⟩

theorem round_eval (x : ℚ) (m : ℤ) (h1 : (m : ℚ) ≤ x + 1 / 2)
    (h2 : x + 1 / 2 < m + 1) : round x = m := by
  rw [round_eq]; exact floor_eval _ _ h1 h2

theorem fract_eval (x : ℚ) (m : ℤ) (h1 : (m : ℚ) ≤ x) (h2 : x < m + 1) :
    Int.fract x = x - m := by
  rw [Int.fract, floor_eval x m h1 h2]

/-- `pyRoundInt` agrees with `round` away from exact halves. -/
theorem pyRoundInt_of_fract_ne (x : ℚ) (h : Int.fract x ≠ 1 / 2) :
    pyRoundInt x = round x := by
  rw [pyRoundInt, if_neg h]

theorem pyRoundInt_intCast (n : ℤ) : pyRoundInt (n : ℚ) = n := by
  rw [pyRoundInt, if_neg, round_intCast]
  rw [Int.fract_intCast]
  norm_num

/-- `pyRound` is the identity on rationals that are exact at the target
decimal position. -/
theorem pyRound_exact (x : ℚ) (d : ℤ) (n : ℤ) (h : x * 10 ^ d = n) :
    pyRound x d = x := by
  have hd : (10 : ℚ) ^ d ≠ 0 := zpow_ne_zero d (by norm_num)
  rw [pyRound, h, pyRoundInt_intCast, ← h, mul_div_assoc, div_self hd, mul_one]

/-- Evaluation of `pyRound` at a point with known floor `f` (not a half)
and known rounded value `m`. -/
theorem pyRound_eval (x : ℚ) (d : ℤ) (m f : ℤ)
    (hf1 : (f : ℚ) ≤ x * 10 ^ d) (hf2 : x * 10 ^ d < f + 1)
    (hne : x * 10 ^ d - f ≠ 1 / 2)
    (hm1 : (m : ℚ) ≤ x * 10 ^ d + 1 / 2) (hm2 : x * 10 ^ d + 1 / 2 < m + 1) :
    pyRound x d = (m : ℚ) / 10 ^ d := by
  rw [pyRound, pyRoundInt_of_fract_ne, round_eval _ _ hm1 hm2]
  rw [fract_eval _ _ hf1 hf2]
  exact hne

/-- Uniqueness characterization of `Int.log 10` on positive rationals. -/
theorem log10_eval (q : ℚ) (k : ℤ) (h1 : (10 : ℚ) ^ k ≤ q)
    (h2 : q < 10 ^ (k + 1)) : Int.log 10 q = k := by
  have hq : 0 < q := lt_of_lt_of_le (zpow_pos (by norm_num) k) h1
  have hz : Int.log 10 ((10 : ℚ) ^ k) = k := by
    have h' := @Int.log_zpow ℚ _ _ 10 (by norm_num) k
    norm_num at h'
    exact h'
  have hk : k ≤ Int.log 10 q := by
    have h := @Int.log_mono_right ℚ _ _ 10 _ _ (zpow_pos (by norm_num : (0:ℚ) < 10) k) h1
    rwa [hz] at h
  have hk2 : Int.log 10 q < k + 1 := by
    by_contra hcon
    push_neg at hcon
    have h3 : (10 : ℚ) ^ (k + 1) ≤ 10 ^ (Int.log 10 q) :=
      zpow_le_zpow_right₀ (by norm_num) hcon
    have h4 : (10 : ℚ) ^ (Int.log 10 q) ≤ q :=
      Int.zpow_log_le_self (by norm_num) hq
    linarith
  omega

/-- The mantissa `q * 10 ^ (-log10 q)` of a positive rational lies in
`[1, 10)`. -/
theorem mantissa_range (q : ℚ) (hq : 0 < q) :
    1 ≤ q * 10 ^ (-(Int.log 10 q)) ∧ q * 10 ^ (-(Int.log 10 q)) < 10 := by
  have hpow : (0 : ℚ) < 10 ^ (Int.log 10 q) := zpow_pos (by norm_num) _
  have h1 : (10 : ℚ) ^ (Int.log 10 q) ≤ q := Int.zpow_log_le_self (by norm_num) hq
  have h2 : q < 10 ^ (Int.log 10 q + 1) := Int.lt_zpow_succ_log_self (by norm_num) q
  rw [zpow_add_one₀ (by norm_num : (10:ℚ) ≠ 0)] at h2
  constructor
  · rw [zpow_neg, ← div_eq_mul_inv, le_div_iff₀ hpow, one_mul]
    exact h1
  · rw [zpow_neg, ← div_eq_mul_inv, div_lt_iff₀ hpow]
    linarith

/-- `pyRoundInt` never moves a value by more than one half. -/
theorem pyRoundInt_bounds (x : ℚ) :
    x - 1 / 2 ≤ (pyRoundInt x : ℚ) ∧ (pyRoundInt x : ℚ) ≤ x + 1 / 2 := by
  unfold pyRoundInt
  split
  · next h =>
    have hx : x = (⌊x⌋ : ℚ) + 1 / 2 := by
      have := Int.fract_add_floor x
      rw [h] at this
      linarith
    rcases Int.even_or_odd ⌊x⌋ with ⟨m, hm⟩ | ⟨m, hm⟩
    · have hr : round (x / 2) = m := by
        apply round_eval
        · rw [hx, hm]; push_cast; linarith
        · rw [hx, hm]; push_cast; linarith
      rw [hr, hx, hm]
      push_cast
      constructor <;> linarith
    · have hr : round (x / 2) = m + 1 := by
        apply round_eval
        · rw [hx, hm]; push_cast; linarith
        · rw [hx, hm]; push_cast; linarith
      rw [hr, hx, hm]
      push_cast
      constructor <;> linarith
  · next h =>
    rw [round_eq]
    have h1 := Int.floor_le (x + 1 / 2)
    have h2 := Int.lt_floor_add_one (x + 1 / 2)
    constructor <;> linarith

/-- Evaluation of `_digits_exponent_std_dev` through the two-significant-
digit branch (`mantissa ≤ 1.9`). -/
theorem EPM_eval_two (q : ℚ) (e c : ℤ) (M : ℚ) (hq : q ≠ 0)
    (he : Int.log 10 |q| = e) (hM : pyRound (q * 10 ^ (-e)) 3 = M)
    (hle : M ≤ 1.9) (hc : ⌈M * 10⌉ = c) :
    _digits_exponent_std_dev q = (2, e - 1, (c : ℚ) * 10 ^ (e - 1)) := by
  simp only [_digits_exponent_std_dev, first_digit, if_pos hq, if_neg hq, he, hM]
  rw [if_pos hle, hc]

/-- Evaluation of `_digits_exponent_std_dev` through the one-significant-
digit branch (`mantissa > 1.9`). -/
theorem EPM_eval_one (q : ℚ) (e c : ℤ) (M : ℚ) (hq : q ≠ 0)
    (he : Int.log 10 |q| = e) (hM : pyRound (q * 10 ^ (-e)) 3 = M)
    (hgt : ¬ M ≤ 1.9) (hc : ⌈M⌉ = c) :
    _digits_exponent_std_dev q = (1, e, (c : ℚ) * 10 ^ e) := by
  simp only [_digits_exponent_std_dev, first_digit, if_pos hq, if_neg hq, he, hM]
  rw [if_neg hgt, hc]

theorem mantissa_shift (m : ℚ) (k : ℤ) : m * 10 ^ k * 10 ^ (-k) = m := by
  rw [mul_assoc, ← zpow_add₀ (by norm_num : (10 : ℚ) ≠ 0)]
  norm_num

theorem scaled_pos (m : ℚ) (k : ℤ) (hm : 0 < m) : 0 < m * 10 ^ k :=
  mul_pos hm (zpow_pos (by norm_num) k)

theorem log10_scaled (m : ℚ) (k : ℤ) (h1 : 1 ≤ m) (h2 : m < 10) :
    Int.log 10 (m * 10 ^ k) = k := by
  apply log10_eval
  · calc (10 : ℚ) ^ k = 1 * 10 ^ k := (one_mul _).symm
    _ ≤ m * 10 ^ k :=
      mul_le_mul_of_nonneg_right h1 (le_of_lt (zpow_pos (by norm_num) k))
  · calc m * 10 ^ k < 10 * 10 ^ k :=
      mul_lt_mul_of_pos_right h2 (zpow_pos (by norm_num) k)
    _ = 10 ^ (k + 1) := by
      rw [zpow_add_one₀ (by norm_num : (10 : ℚ) ≠ 0), mul_comm]

/-- `_digits_exponent_std_dev` on `m * 10^k` for an exact 3-decimal
mantissa `m` with `1 ≤ m ≤ 1.9` (two-digit branch). -/
theorem EPM_scaled_two (m : ℚ) (k c n : ℤ)
    (h1 : 1 ≤ m) (h2 : m ≤ 1.9) (hn : m * 10 ^ (3 : ℤ) = n) (hc : ⌈m * 10⌉ = c) :
    _digits_exponent_std_dev (m * 10 ^ k) = (2, k - 1, (c : ℚ) * 10 ^ (k - 1)) := by
  have hm : 0 < m := lt_of_lt_of_le one_pos h1
  apply EPM_eval_two _ k c m (ne_of_gt (scaled_pos m k hm))
  · rw [abs_of_pos (scaled_pos m k hm)]
    exact log10_scaled m k h1 (lt_of_le_of_lt h2 (by norm_num))
  · rw [mantissa_shift]
    exact pyRound_exact m 3 n hn
  · exact h2
  · exact hc

/-- `_digits_exponent_std_dev` on `m * 10^k` for an exact 3-decimal
mantissa `m` with `1.9 < m < 10` (one-digit branch). -/
theorem EPM_scaled_one (m : ℚ) (k c n : ℤ)
    (h1 : 1.9 < m) (h2 : m < 10) (hn : m * 10 ^ (3 : ℤ) = n) (hc : ⌈m⌉ = c) :
    _digits_exponent_std_dev (m * 10 ^ k) = (1, k, (c : ℚ) * 10 ^ k) := by
  have hm : 0 < m := lt_trans (by norm_num) h1
  apply EPM_eval_one _ k c m (ne_of_gt (scaled_pos m k hm))
  · rw [abs_of_pos (scaled_pos m k hm)]
    exact log10_scaled m k (by linarith [show (1:ℚ) ≤ 1.9 by norm_num]) h2
  · rw [mantissa_shift]
    exact pyRound_exact m 3 n hn
  · exact not_le_of_lt h1
  · exact hc

/-- C7: for every integer `k`, `DigitResolver.resolve (1.9 * 10^k)` and
`resolve (1.89 * 10^k)` both return `digits = 2` with the exponent
decremented to `k - 1`, while `resolve (2.0 * 10^k)` returns `digits = 1`
with exponent `k`. -/
theorem C7_threshold_digits (k : ℤ) :
    EPM_digits (1.9 * 10 ^ k) = 2 ∧ EPM_exponent (1.9 * 10 ^ k) = k - 1 ∧
    EPM_digits (1.89 * 10 ^ k) = 2 ∧ EPM_exponent (1.89 * 10 ^ k) = k - 1 ∧
    EPM_digits (2.0 * 10 ^ k) = 1 ∧ EPM_exponent (2.0 * 10 ^ k) = k := by
  have h19 := EPM_scaled_two 1.9 k 19 1900 (by norm_num) le_rfl (by norm_num)
    (ceil_eval (1.9 * 10) 19 (by norm_num) (by norm_num))
  have h189 := EPM_scaled_two 1.89 k 19 1890 (by norm_num) (by norm_num) (by norm_num)
    (ceil_eval (1.89 * 10) 19 (by norm_num) (by norm_num))
  have h20 := EPM_scaled_one 2.0 k 2 2000 (by norm_num) (by norm_num) (by norm_num)
    (ceil_eval 2.0 2 (by norm_num) (by norm_num))
  refine ⟨?_, ?_, ?_, ?_, ?_, ?_⟩ <;>
    simp only [EPM_digits, EPM_exponent, h19, h189, h20]

/-- C8: `DigitResolver.resolve 0 = (0, 0, 0.0)`, and
`UncertainValue.fromRounded(nominal, 0)` (the `round_n_s` path) returns
the nominal value unrounded for every nominal: a zero standard deviation
is a defined branch. -/
theorem C8_zero_branch :
    _digits_exponent_std_dev 0 = (0, 0, 0) ∧
    ∀ nominal : ℚ, round_n_s nominal 0 = (nominal, 0) := by
  have h0 : _digits_exponent_std_dev 0 = (0, 0, 0) := by
    simp [_digits_exponent_std_dev]
  refine ⟨h0, fun nominal => ?_⟩
  simp only [round_n_s, h0]
  norm_num

/-- C9: `lookup(2,1) = 1.84`, `lookup(50,1) = 1.01`, `lookup(51,2) = 2`,
and for every sample size outside `[2, 50]` and `sigma ∈ {1,2,3}` the
lookup falls back to `sigma` itself. -/
theorem C9_t_lookup :
    t_lookup 2 1 = 1.84 ∧ t_lookup 50 1 = 1.01 ∧ t_lookup 51 2 = 2 ∧
    ∀ (n sigma : ℕ), sigma = 1 ∨ sigma = 2 ∨ sigma = 3 → n < 2 ∨ 50 < n →
      t_lookup n sigma = (sigma : ℚ) := by
  refine ⟨rfl, rfl, by norm_num [t_lookup], fun n sigma _ hn => ?_⟩
  rw [t_lookup, if_neg]
  omega

/-- Witness for C9: the fallback at `n = 51`, `sigma = 3`. -/
theorem C9_t_lookup_witness : t_lookup 51 3 = 3 :=
  C9_t_lookup.2.2.2 51 3 (Or.inr (Or.inr rfl)) (Or.inr (by norm_num))

/-- Bounds on the 3-decimal rounded mantissa `M` of a positive rational:
`M` is within `1/2000` of the true mantissa, and (by integrality of
`pyRoundInt`) `1 ≤ M ≤ 10`. -/
theorem mantissa_M_bounds (q : ℚ) (hq : 0 < q) :
    q * 10 ^ (-(Int.log 10 q)) - 1 / 2000 ≤ pyRound (q * 10 ^ (-(Int.log 10 q))) 3 ∧
    pyRound (q * 10 ^ (-(Int.log 10 q))) 3 ≤ q * 10 ^ (-(Int.log 10 q)) + 1 / 2000 ∧
    1 ≤ pyRound (q * 10 ^ (-(Int.log 10 q))) 3 ∧
    pyRound (q * 10 ^ (-(Int.log 10 q))) 3 ≤ 10 := by
  obtain ⟨hm1, hm2⟩ := mantissa_range q hq
  have hp3 : (10 : ℚ) ^ (3 : ℤ) = 1000 := by norm_num
  set z := pyRoundInt (q * 10 ^ (-(Int.log 10 q)) * 10 ^ (3 : ℤ)) with hzdef
  obtain ⟨hz1, hz2⟩ := pyRoundInt_bounds (q * 10 ^ (-(Int.log 10 q)) * 10 ^ (3 : ℤ))
  rw [← hzdef] at hz1 hz2
  rw [hp3] at hz1 hz2
  have hM : pyRound (q * 10 ^ (-(Int.log 10 q))) 3 = (z : ℚ) / 1000 := by
    simp only [pyRound]
    rw [← hzdef, hp3]
  have hz1000 : (1000 : ℤ) ≤ z := by
    have h : (999 : ℚ) < (z : ℚ) := by linarith
    have h2 : (999 : ℤ) < z := by exact_mod_cast h
    omega
  have hz10000 : z ≤ (10000 : ℤ) := by
    have h : (z : ℚ) < 10001 := by linarith
    have h2 : z < (10001 : ℤ) := by exact_mod_cast h
    omega
  have hc1 : (1000 : ℚ) ≤ (z : ℚ) := by exact_mod_cast hz1000
  have hc2 : (z : ℚ) ≤ 10000 := by exact_mod_cast hz10000
  rw [hM]
  refine ⟨by linarith, by linarith, by linarith, by linarith⟩

/-- Shape of the rounded standard deviation: for every positive input it
is `c * 10^k` with `2 ≤ c ≤ 19` (at most two significant digits). -/
theorem EPM_shape (q : ℚ) (hq : 0 < q) :
    ∃ c k : ℤ, EPM_s q = (c : ℚ) * 10 ^ k ∧ 2 ≤ c ∧ c ≤ 19 := by
  obtain ⟨hb1, hb2, hM1, hM10⟩ := mantissa_M_bounds q hq
  set M := pyRound (q * 10 ^ (-(Int.log 10 q))) 3 with hMdef
  by_cases hbr : M ≤ 1.9
  · have heval := EPM_eval_two q (Int.log 10 q) ⌈M * 10⌉ M (ne_of_gt hq)
      (by rw [abs_of_pos hq]) rfl hbr rfl
    refine ⟨⌈M * 10⌉, Int.log 10 q - 1, ?_, ?_, ?_⟩
    · rw [EPM_s, heval]
    · have h : (10 : ℚ) ≤ M * 10 := by linarith
      have h2 : (10 : ℚ) ≤ (⌈M * 10⌉ : ℚ) := le_trans h (Int.le_ceil _)
      exact_mod_cast le_trans (by norm_num : (2:ℚ) ≤ 10) h2
    · apply Int.ceil_le.mpr
      have : (1.9 : ℚ) * 10 = 19 := by norm_num
      push_cast
      nlinarith
  · push_neg at hbr
    have heval := EPM_eval_one q (Int.log 10 q) ⌈M⌉ M (ne_of_gt hq)
      (by rw [abs_of_pos hq]) rfl (not_le_of_lt hbr) rfl
    refine ⟨⌈M⌉, Int.log 10 q, ?_, ?_, ?_⟩
    · rw [EPM_s, heval]
    · have h2 : (1.9 : ℚ) < (⌈M⌉ : ℚ) := lt_of_lt_of_le hbr (Int.le_ceil _)
      have h3 : (1 : ℤ) < ⌈M⌉ := by exact_mod_cast lt_trans (by norm_num : (1:ℚ) < 1.9) h2
      omega
    · have h : ⌈M⌉ ≤ 10 := Int.ceil_le.mpr (by exact_mod_cast hM10)
      omega

/-- Rationals of the two-significant-digit shape `c * 10^k`, `2 ≤ c ≤ 19`,
are fixed points of the rounding. -/
theorem EPM_fixed (c k : ℤ) (h2 : 2 ≤ c) (h19 : c ≤ 19) :
    EPM_s ((c : ℚ) * 10 ^ k) = (c : ℚ) * 10 ^ k := by
  by_cases hc9 : c ≤ 9
  · have heval := EPM_scaled_one (c : ℚ) k c (1000 * c)
      (by linarith [show (1.9:ℚ) < 2 by norm_num,
        show (2:ℚ) ≤ (c:ℚ) from by exact_mod_cast h2])
      (by exact_mod_cast lt_of_le_of_lt hc9 (by norm_num : (9:ℤ) < 10))
      (by push_cast; ring) (Int.ceil_intCast c)
    rw [EPM_s, heval]
  · push_neg at hc9
    have hc10 : (10 : ℤ) ≤ c := by omega
    have hsplit : (c : ℚ) * 10 ^ k = ((c : ℚ) / 10) * 10 ^ (k + 1) := by
      rw [zpow_add_one₀ (by norm_num : (10:ℚ) ≠ 0)]
      ring
    have hcQ : (10 : ℚ) ≤ (c : ℚ) := by exact_mod_cast hc10
    have hcQ19 : (c : ℚ) ≤ 19 := by exact_mod_cast h19
    have heval := EPM_scaled_two ((c : ℚ) / 10) (k + 1) c (100 * c)
      (by linarith) (by nlinarith [show (1.9:ℚ) * 10 = 19 by norm_num])
      (by push_cast; ring)
      (by rw [div_mul_cancel₀ _ (by norm_num : (10:ℚ) ≠ 0)]; exact Int.ceil_intCast c)
    rw [EPM_s, hsplit, heval]
    rw [add_sub_cancel_right, ← hsplit]

/-- C10: DigitResolver is idempotent on its rounded output: for every
`std_dev > 0`, resolving the rounded standard deviation again returns the
same rounded standard deviation. -/
theorem C10_resolve_idempotent (q : ℚ) (hq : 0 < q) :
    EPM_s (EPM_s q) = EPM_s q := by
  obtain ⟨c, k, hs, h2, h19⟩ := EPM_shape q hq
  rw [hs, EPM_fixed c k h2 h19]

/-- Witness for C10 at `std_dev = 3`. -/
theorem C10_resolve_idempotent_witness :
    (0 : ℚ) < 3 ∧ EPM_s (EPM_s 3) = EPM_s 3 :=
  ⟨by norm_num, C10_resolve_idempotent 3 (by norm_num)⟩

/-- C3 counterexample: the 3-decimal mantissa pre-rounding can round down
across the claimed ceiling: at `std_dev = 2.0004` the resolver returns
`rounded_std_dev = 2 < 2.0004`, so `rounded_std_dev >= std_dev` fails. -/
theorem C3_counterexample : EPM_s 2.0004 = 2 ∧ EPM_s 2.0004 < 2.0004 := by
  have he : Int.log 10 |(2.0004 : ℚ)| = 0 := by
    rw [abs_of_pos (by norm_num : (0:ℚ) < 2.0004)]
    exact log10_eval _ 0 (by norm_num) (by norm_num)
  have hM : pyRound ((2.0004 : ℚ) * 10 ^ (-(0 : ℤ))) 3 = 2 := by
    have h := pyRound_eval ((2.0004 : ℚ) * 10 ^ (-(0 : ℤ))) 3 2000 2000
      (by norm_num) (by norm_num) (by norm_num) (by norm_num) (by norm_num)
    rw [h]; norm_num
  have heval := EPM_eval_one 2.0004 0 2 2 (by norm_num) he hM (by norm_num)
    (ceil_eval 2 2 (by norm_num) (by norm_num))
  constructor
  · rw [EPM_s, heval]; norm_num
  · rw [EPM_s, heval]; norm_num

/-- C3 (amended): for every `std_dev > 0` the rounded standard deviation
has at most two significant digits (it is `c * 10^k` with `2 ≤ c ≤ 19`),
and the ceiling property `rounded_std_dev ≥ std_dev` holds whenever the
3-decimal pre-rounding does not round the mantissa down (in particular
for every standard deviation whose mantissa has at most 3 fractional
digits). -/
theorem C3_round_up (q : ℚ) (hq : 0 < q) :
    (∃ c k : ℤ, EPM_s q = (c : ℚ) * 10 ^ k ∧ 2 ≤ c ∧ c ≤ 19) ∧
    (q * 10 ^ (-(Int.log 10 q)) ≤ pyRound (q * 10 ^ (-(Int.log 10 q))) 3 →
      q ≤ EPM_s q) := by
  refine ⟨EPM_shape q hq, fun hup => ?_⟩
  set M := pyRound (q * 10 ^ (-(Int.log 10 q))) 3 with hMdef
  have hqeq : q * 10 ^ (-(Int.log 10 q)) * 10 ^ (Int.log 10 q) = q := by
    rw [mul_assoc, ← zpow_add₀ (by norm_num : (10:ℚ) ≠ 0)]
    norm_num
  have hpow : (0:ℚ) < 10 ^ (Int.log 10 q - 1) := zpow_pos (by norm_num) _
  have hpow0 : (0:ℚ) < 10 ^ (Int.log 10 q) := zpow_pos (by norm_num) _
  by_cases hbr : M ≤ 1.9
  · have heval := EPM_eval_two q (Int.log 10 q) ⌈M * 10⌉ M (ne_of_gt hq)
      (by rw [abs_of_pos hq]) rfl hbr rfl
    rw [EPM_s, heval]
    have h1 : M * 10 ≤ (⌈M * 10⌉ : ℚ) := Int.le_ceil _
    have hsa : Int.log 10 q - 1 + 1 = Int.log 10 q := by omega
    have h10 : (10:ℚ) ^ (Int.log 10 q) = 10 ^ (Int.log 10 q - 1) * 10 := by
      rw [← zpow_add_one₀ (by norm_num : (10:ℚ) ≠ 0), hsa]
    calc q = q * 10 ^ (-(Int.log 10 q)) * 10 ^ (Int.log 10 q) := hqeq.symm
      _ ≤ M * 10 ^ (Int.log 10 q) :=
        mul_le_mul_of_nonneg_right hup (le_of_lt hpow0)
      _ = M * 10 * 10 ^ (Int.log 10 q - 1) := by rw [h10]; ring
      _ ≤ (⌈M * 10⌉ : ℚ) * 10 ^ (Int.log 10 q - 1) :=
        mul_le_mul_of_nonneg_right h1 (le_of_lt hpow)
  · have heval := EPM_eval_one q (Int.log 10 q) ⌈M⌉ M (ne_of_gt hq)
      (by rw [abs_of_pos hq]) rfl hbr rfl
    rw [EPM_s, heval]
    have h1 : M ≤ (⌈M⌉ : ℚ) := Int.le_ceil _
    calc q = q * 10 ^ (-(Int.log 10 q)) * 10 ^ (Int.log 10 q) := hqeq.symm
      _ ≤ M * 10 ^ (Int.log 10 q) :=
        mul_le_mul_of_nonneg_right hup (le_of_lt hpow0)
      _ ≤ (⌈M⌉ : ℚ) * 10 ^ (Int.log 10 q) :=
        mul_le_mul_of_nonneg_right h1 (le_of_lt hpow0)

/-- Witness for C3 at `std_dev = 3` (mantissa exact, ceiling holds). -/
theorem C3_round_up_witness : (3:ℚ) ≤ EPM_s 3 := by
  apply (C3_round_up 3 (by norm_num)).2
  have he : Int.log 10 (3:ℚ) = 0 := log10_eval 3 0 (by norm_num) (by norm_num)
  rw [he]
  have h3 : (3:ℚ) * 10 ^ (-(0:ℤ)) = 3 := by norm_num
  rw [h3, pyRound_exact 3 3 3000 (by norm_num)]

/-! ### Structural facts about the `Student` embedding -/

theorem studentMk_t (xs : List ℚ) (sigma : ℕ) :
    (studentMk xs sigma).t = t_lookup xs.length sigma := rfl

theorem studentMk_rawN (xs : List ℚ) (sigma : ℕ) :
    (studentMk xs sigma)._n = np_mean xs := rfl

theorem studentMk_rawS (xs : List ℚ) (sigma : ℕ) :
    (studentMk xs sigma)._s = scipy_sem xs := rfl

theorem studentMk_mean_n (xs : List ℚ) (sigma : ℕ) :
    (studentMk xs sigma).mean.n = np_mean xs := rfl

theorem studentMk_mean_s (xs : List ℚ) (sigma : ℕ) :
    (studentMk xs sigma).mean.s = t_lookup xs.length sigma * scipy_sem xs := rfl

theorem studentMk_s_eq (xs : List ℚ) (sigma : ℕ) :
    (studentMk xs sigma).s = (studentMk xs sigma).mean.s := rfl

theorem Student_eq_some (xs : List ℚ) (sigma : ℕ)
    (h : sigma = 1 ∨ sigma = 2 ∨ sigma = 3) :
    Student xs sigma = some (studentMk xs sigma) := if_pos h

theorem Student_valid (xs : List ℚ) (sigma : ℕ) (st : StudentT)
    (h : Student xs sigma = some st) : st = studentMk xs sigma := by
  by_cases hv : sigma = 1 ∨ sigma = 2 ∨ sigma = 3
  · rw [Student_eq_some xs sigma hv] at h
    exact (Option.some.inj h).symm
  · rw [Student, if_neg hv] at h
    exact absurd h (Option.noConfusion)

theorem studentMk_factor_used (xs : List ℚ) (sigma : ℕ) :
    (studentMk xs sigma)._factor_used = true ↔
      t_lookup xs.length sigma * scipy_sem xs ≠ scipy_sem xs := by
  simp only [studentMk, ufloat, decide_eq_true_eq]

/-- Table values used in concrete scenarios. -/
theorem t_lookup_2_1 : t_lookup 2 1 = 1.84 := rfl

theorem t_lookup_3_1 : t_lookup 3 1 = 1.32 := rfl

theorem t_lookup_18_1 : t_lookup 18 1 = 1.03 := rfl

theorem t_lookup_20_1 : t_lookup 20 1 = 1.03 := rfl

/-- SEM of the two-element series `[0, 1]` is exactly `1/2`. -/
theorem sem_01 : scipy_sem [0, 1] = 1 / 2 := by
  have harg : ssq ([0, 1] : List ℚ) /
      (((([0, 1] : List ℚ).length - 1 : ℕ) : ℚ) * ((([0, 1] : List ℚ).length : ℕ) : ℚ)) =
      (1 / 2 : ℚ) * (1 / 2) := by
    norm_num [ssq, np_mean]
  unfold scipy_sem
  rw [if_neg (by norm_num), harg, Rat.sqrt_eq,
    abs_of_pos (by norm_num : (0:ℚ) < 1/2)]

/-- SEM of the constant series `[1, 1, 1]` is `0`. -/
theorem sem_ones3 : scipy_sem [1, 1, 1] = 0 := by
  have harg : ssq ([1, 1, 1] : List ℚ) /
      (((([1, 1, 1] : List ℚ).length - 1 : ℕ) : ℚ) * ((([1, 1, 1] : List ℚ).length : ℕ) : ℚ)) =
      (0 : ℚ) * 0 := by
    norm_num [ssq, np_mean]
  unfold scipy_sem
  rw [if_neg (by norm_num), harg, Rat.sqrt_eq, abs_zero]

/-- SEM of the 18-element series `[8.1, 0, ..., 0]` is exactly `0.45`
(one spike of `8.1` and 17 zeros: `sem = 8.1 / 18`). -/
theorem sem_spike18 : scipy_sem (81/10 :: List.replicate 17 0) = 9 / 20 := by
  have harg : ssq ((81/10 : ℚ) :: List.replicate 17 0) /
      (((((81/10 : ℚ) :: List.replicate 17 0).length - 1 : ℕ) : ℚ) *
        ((((81/10 : ℚ) :: List.replicate 17 0).length : ℕ) : ℚ)) =
      (9 / 20 : ℚ) * (9 / 20) := by
    norm_num [ssq, np_mean, List.replicate_succ]
  unfold scipy_sem
  rw [if_neg (by simp), harg, Rat.sqrt_eq,
    abs_of_pos (by norm_num : (0:ℚ) < 9/20)]

theorem EPM_s_092 : EPM_s 0.92 = 1 := by
  have he : Int.log 10 |(0.92 : ℚ)| = -1 := by
    rw [abs_of_pos (by norm_num : (0:ℚ) < 0.92)]
    exact log10_eval _ (-1) (by norm_num) (by norm_num)
  have hM : pyRound ((0.92 : ℚ) * 10 ^ (-(-1 : ℤ))) 3 = 9.2 := by
    rw [show (0.92:ℚ) * 10 ^ (-(-1:ℤ)) = 9.2 by norm_num]
    exact pyRound_exact 9.2 3 9200 (by norm_num)
  have heval := EPM_eval_one 0.92 (-1) 10 9.2 (by norm_num) he hM (by norm_num)
    (ceil_eval 9.2 10 (by norm_num) (by norm_num))
  rw [EPM_s, heval]
  norm_num

theorem EPM_s_04635 : EPM_s 0.4635 = 0.5 := by
  have he : Int.log 10 |(0.4635 : ℚ)| = -1 := by
    rw [abs_of_pos (by norm_num : (0:ℚ) < 0.4635)]
    exact log10_eval _ (-1) (by norm_num) (by norm_num)
  have hM : pyRound ((0.4635 : ℚ) * 10 ^ (-(-1 : ℤ))) 3 = 4.635 := by
    rw [show (0.4635:ℚ) * 10 ^ (-(-1:ℤ)) = 4.635 by norm_num]
    exact pyRound_exact 4.635 3 4635 (by norm_num)
  have heval := EPM_eval_one 0.4635 (-1) 5 4.635 (by norm_num) he hM (by norm_num)
    (ceil_eval 4.635 5 (by norm_num) (by norm_num))
  rw [EPM_s, heval]
  norm_num

theorem EPM_s_045 : EPM_s 0.45 = 0.5 := by
  have he : Int.log 10 |(0.45 : ℚ)| = -1 := by
    rw [abs_of_pos (by norm_num : (0:ℚ) < 0.45)]
    exact log10_eval _ (-1) (by norm_num) (by norm_num)
  have hM : pyRound ((0.45 : ℚ) * 10 ^ (-(-1 : ℤ))) 3 = 4.5 := by
    rw [show (0.45:ℚ) * 10 ^ (-(-1:ℤ)) = 4.5 by norm_num]
    exact pyRound_exact 4.5 3 4500 (by norm_num)
  have heval := EPM_eval_one 0.45 (-1) 5 4.5 (by norm_num) he hM (by norm_num)
    (ceil_eval 4.5 5 (by norm_num) (by norm_num))
  rw [EPM_s, heval]
  norm_num

/-- C2 counterexample: for the series `[0, 1]` with `sigma = 1` the stored
uncertainty is the unrounded `t * raw_sem = 1.84 * 0.5 = 0.92`, while the
DigitResolver ceiling-rounding of `t * raw_sem` is `1`: the stored field
is not the rounded value (the `init()` patch is commented out at import,
so the stock constructor stores raw values and only display rounds). -/
theorem C2_counterexample :
    (studentMk [0, 1] 1).mean.s = 0.92 ∧
    EPM_s ((studentMk [0, 1] 1).t * (studentMk [0, 1] 1)._s) = 1 ∧
    (studentMk [0, 1] 1).mean.s ≠
      EPM_s ((studentMk [0, 1] 1).t * (studentMk [0, 1] 1)._s) := by
  have hts : (studentMk ([0, 1] : List ℚ) 1).t * (studentMk ([0, 1] : List ℚ) 1)._s
      = 0.92 := by
    rw [studentMk_t, studentMk_rawS, sem_01]
    norm_num [t_lookup_2_1]
  have hms : (studentMk ([0, 1] : List ℚ) 1).mean.s = 0.92 := by
    rw [studentMk_mean_s, sem_01]
    norm_num [t_lookup_2_1]
  refine ⟨hms, ?_, ?_⟩
  · rw [hts, EPM_s_092]
  · rw [hms, hts, EPM_s_092]
    norm_num

/-- C2 (amended): the stored mean is the UNROUNDED pair — `mean.nominal`
is exactly `raw_mean` and `mean.uncertainty` is exactly
`t_factor * raw_sem` (the stock constructor stores raw values because
`init()` is commented out in `src/__init__.py`); the rounding convention
acts only in the display path, which shows `round_n_s` of the stored
fields, so display and storage diverge whenever `t_factor * raw_sem` is
not already a fixed point of the rounding. -/
theorem C2_storage_unrounded (xs : List ℚ) (sigma : ℕ) (st : StudentT)
    (h : Student xs sigma = some st) :
    st.mean.n = np_mean xs ∧ st.mean.s = st.t * scipy_sem xs ∧
    displayed st.mean = round_n_s (np_mean xs) (st.t * scipy_sem xs) := by
  obtain rfl := Student_valid xs sigma st h
  exact ⟨rfl, rfl, rfl⟩

/-- Witness for C2 at the series `[0, 1]`, `sigma = 1`. -/
theorem C2_storage_unrounded_witness :
    (studentMk [0, 1] 1).mean.n = np_mean [0, 1] ∧
    (studentMk [0, 1] 1).mean.s = (studentMk [0, 1] 1).t * scipy_sem [0, 1] ∧
    displayed (studentMk [0, 1] 1).mean =
      round_n_s (np_mean [0, 1]) ((studentMk [0, 1] 1).t * scipy_sem [0, 1]) :=
  C2_storage_unrounded [0, 1] 1 (studentMk [0, 1] 1)
    (Student_eq_some [0, 1] 1 (Or.inl rfl))

/-- C5 counterexample: for the 18-element series `[8.1, 0, ..., 0]` with
`sigma = 1` (`t = 1.03`, `raw_sem = 0.45`) the flag `_factor_used` is
`true`, yet the DigitResolver roundings of `t * raw_sem = 0.4635` and of
`raw_sem = 0.45` agree (both `0.5`): the claimed criterion (flag iff the
rounded values differ) evaluates to `false` while the code's flag is
`true`. -/
theorem C5_counterexample :
    (studentMk (81/10 :: List.replicate 17 0) 1)._factor_used = true ∧
    EPM_s ((studentMk (81/10 :: List.replicate 17 0) 1).t *
        (studentMk (81/10 :: List.replicate 17 0) 1)._s) =
      EPM_s ((studentMk (81/10 :: List.replicate 17 0) 1)._s) := by
  have hlen : ((81/10 : ℚ) :: List.replicate 17 0).length = 18 := by simp
  have hts : (studentMk ((81/10 : ℚ) :: List.replicate 17 0) 1).t *
      (studentMk ((81/10 : ℚ) :: List.replicate 17 0) 1)._s = 0.4635 := by
    rw [studentMk_t, studentMk_rawS, sem_spike18, hlen, t_lookup_18_1]
    norm_num
  have hs : (studentMk ((81/10 : ℚ) :: List.replicate 17 0) 1)._s = 0.45 := by
    rw [studentMk_rawS, sem_spike18]
    norm_num
  constructor
  · rw [studentMk_factor_used, hlen, t_lookup_18_1, sem_spike18]
    norm_num
  · rw [hts, hs, EPM_s_04635, EPM_s_045]

/-- C5 (amended): the flag compares the UNROUNDED quantities: it is true
iff `t_factor * raw_sem ≠ raw_sem` exactly, i.e. iff `raw_sem ≠ 0` and
`t_factor ≠ 1`; the DigitResolver rounding plays no role in it. -/
theorem C5_flag_iff (xs : List ℚ) (sigma : ℕ) (st : StudentT)
    (h : Student xs sigma = some st) :
    ((st._factor_used = true) ↔ st.t * st._s ≠ st._s) ∧
    ((st._factor_used = true) ↔ (st._s ≠ 0 ∧ st.t ≠ 1)) := by
  obtain rfl := Student_valid xs sigma st h
  have h1 : ((studentMk xs sigma)._factor_used = true) ↔
      (studentMk xs sigma).t * (studentMk xs sigma)._s ≠ (studentMk xs sigma)._s :=
    studentMk_factor_used xs sigma
  refine ⟨h1, h1.trans ?_⟩
  constructor
  · intro hne
    constructor
    · intro h0
      exact hne (by rw [studentMk_rawS] at h0 ⊢; rw [h0, mul_zero])
    · intro ht
      exact hne (by rw [ht, one_mul])
  · rintro ⟨hs0, ht1⟩ heq
    apply ht1
    have h2 : (studentMk xs sigma).t * (studentMk xs sigma)._s
        = 1 * (studentMk xs sigma)._s := by
      rw [heq, one_mul]
    exact mul_right_cancel₀ hs0 h2

/-- Witness for C5 at the series `[0, 1]`, `sigma = 1`. -/
theorem C5_flag_iff_witness :
    (((studentMk [0, 1] 1)._factor_used = true) ↔
      (studentMk [0, 1] 1).t * (studentMk [0, 1] 1)._s ≠ (studentMk [0, 1] 1)._s) ∧
    (((studentMk [0, 1] 1)._factor_used = true) ↔
      ((studentMk [0, 1] 1)._s ≠ 0 ∧ (studentMk [0, 1] 1).t ≠ 1)) :=
  C5_flag_iff [0, 1] 1 (studentMk [0, 1] 1)
    (Student_eq_some [0, 1] 1 (Or.inl rfl))

/-- C6: for every single-element series and `sigma ∈ {1,2,3}` the
estimator does not raise (the constructor succeeds), the SEM is 0 by the
spec's convention for the degenerate sample, and the resulting estimate's
uncertainty is 0. -/
theorem C6_single_series (x : ℚ) (sigma : ℕ)
    (h : sigma = 1 ∨ sigma = 2 ∨ sigma = 3) :
    Student [x] sigma = some (studentMk [x] sigma) ∧
    (studentMk [x] sigma)._s = 0 ∧
    (studentMk [x] sigma).mean.s = 0 ∧ (studentMk [x] sigma).s = 0 := by
  have hsem : scipy_sem [x] = 0 := by
    unfold scipy_sem
    rw [if_pos (by simp)]
  refine ⟨Student_eq_some [x] sigma h, ?_, ?_, ?_⟩
  · rw [studentMk_rawS]
    exact hsem
  · rw [studentMk_mean_s, hsem, mul_zero]
  · rw [studentMk_s_eq, studentMk_mean_s, hsem, mul_zero]

/-- Witness for C6 at the series `[5]`, `sigma = 2`. -/
theorem C6_single_series_witness :
    Student [5] 2 = some (studentMk [5] 2) ∧ (studentMk [5] 2)._s = 0 ∧
    (studentMk [5] 2).mean.s = 0 ∧ (studentMk [5] 2).s = 0 :=
  C6_single_series 5 2 (Or.inr (Or.inl rfl))

/-- C4 counterexample: the t-factor used for the 20-element scenario-1
series with `sigma = 1` is `lookup(20,1) = 1.03` (the table value, equal
to the original EPM table entry for `N = 20`), not `1.029` as claimed —
`1.029` is the table entry for `n = 22`. -/
theorem C4_counterexample :
    (studentMk series20 1).t = 1.03 ∧ ¬ (studentMk series20 1).t = 1.029 := by
  have ht : (studentMk series20 1).t = 1.03 := rfl
  exact ⟨ht, by rw [ht]; norm_num⟩

/-- C4 (amended): scenario 1 uses `t_factor = lookup(20,1) = 1.03`; the
stored mean holds the unrounded `raw_mean` and `1.03 * raw_sem`, and the
display path rounds it consistently with DigitResolver applied to
`1.03 * raw_sem`. -/
theorem C4_scenario1 :
    (studentMk series20 1).t = t_lookup 20 1 ∧ t_lookup 20 1 = 1.03 ∧
    (studentMk series20 1).mean.n = np_mean series20 ∧
    (studentMk series20 1).mean.s = 1.03 * scipy_sem series20 ∧
    displayed (studentMk series20 1).mean =
      round_n_s (np_mean series20) (1.03 * scipy_sem series20) :=
  ⟨rfl, rfl, rfl, rfl, rfl⟩

theorem getD_map_range {α : Type} (f : ℕ → α) (r j : ℕ) (hj : j < r) (d : α) :
    ((List.range r).map f).getD j d = f j := by
  rw [List.getD_eq_getElem?_getD, List.getElem?_map, List.getElem?_range hj]
  rfl

theorem df_nrows_eq (cols : List (List ℚ)) (r : ℕ) (hcols : cols ≠ [])
    (hrect : ∀ c ∈ cols, c.length = r) : df_nrows cols = r := by
  rcases cols with _ | ⟨c, cs⟩
  · exact absurd rfl hcols
  · exact hrect c (List.mem_cons_self c cs)

/-- C1 counterexample: on 3 columns of 5 constant values `1.0` the
implementation returns one estimate per ROW of the table (5 estimates,
`nominals = [1,1,1,1,1]`, `uncertainties = [0,0,0,0,0]`), not 3 estimates
`[1,1,1]` as claimed: `StudentArray` applies `Student` along `axis=1`. -/
theorem C1_counterexample :
    StudentArray_n [[1,1,1,1,1],[1,1,1,1,1],[1,1,1,1,1]] 1 = some [1,1,1,1,1] ∧
    StudentArray_s [[1,1,1,1,1],[1,1,1,1,1],[1,1,1,1,1]] 1 = some [0,0,0,0,0] ∧
    StudentArray_n [[1,1,1,1,1],[1,1,1,1,1],[1,1,1,1,1]] 1 ≠ some [1,1,1] := by
  have hmean : np_mean ([1, 1, 1] : List ℚ) = 1 := by norm_num [np_mean]
  have hs0 : t_lookup 3 1 * scipy_sem [1, 1, 1] = 0 := by rw [sem_ones3, mul_zero]
  have h1 : StudentArray_n [[1,1,1,1,1],[1,1,1,1,1],[1,1,1,1,1]] 1 =
      some [np_mean [1,1,1], np_mean [1,1,1], np_mean [1,1,1],
        np_mean [1,1,1], np_mean [1,1,1]] := rfl
  have h2 : StudentArray_s [[1,1,1,1,1],[1,1,1,1,1],[1,1,1,1,1]] 1 =
      some [t_lookup 3 1 * scipy_sem [1,1,1], t_lookup 3 1 * scipy_sem [1,1,1],
        t_lookup 3 1 * scipy_sem [1,1,1], t_lookup 3 1 * scipy_sem [1,1,1],
        t_lookup 3 1 * scipy_sem [1,1,1]] := rfl
  refine ⟨?_, ?_, ?_⟩
  · rw [h1, hmean]
  · rw [h2, hs0]
  · rw [h1, hmean]
    simp

/-- C1 (amended): for a rectangular table of equal-length columns,
`StudentArray` produces one estimate per ROW (index position): `r`
estimates for columns of length `r`, the `j`-th estimate being the
`Student` mean of the `j`-th entries of all columns; on 3 columns of 5
constant `1.0` values this yields `nominals = [1,1,1,1,1]` and
`uncertainties = [0,0,0,0,0]`. -/
theorem C1_per_row (cols : List (List ℚ)) (r sigma : ℕ)
    (hsig : sigma = 1 ∨ sigma = 2 ∨ sigma = 3)
    (hcols : cols ≠ []) (hrect : ∀ c ∈ cols, c.length = r) :
    ∃ l : List UFloat, StudentArray cols sigma = some l ∧ l.length = r ∧
      ∀ j, j < r → l.getD j (ufloat 0 0) =
        (studentMk (cols.map (fun c => c.getD j 0)) sigma).mean := by
  have hn : df_nrows cols = r := df_nrows_eq cols r hcols hrect
  refine ⟨studentArrayMk cols sigma, if_pos hsig, ?_, ?_⟩
  · simp [studentArrayMk, df_rows, hn]
  · intro j hj
    simp only [studentArrayMk, df_rows]
    rw [hn, List.map_map]
    exact getD_map_range _ r j hj _

/-- Witness for C1: the 3-columns-of-5-ones table with `sigma = 1`. -/
theorem C1_per_row_witness :
    ∃ l : List UFloat,
      StudentArray [[1,1,1,1,1],[1,1,1,1,1],[1,1,1,1,1]] 1 = some l ∧
      l.length = 5 ∧
      ∀ j, j < 5 → l.getD j (ufloat 0 0) =
        (studentMk (([[1,1,1,1,1],[1,1,1,1,1],[1,1,1,1,1]] : List (List ℚ)).map
          (fun c => c.getD j 0)) 1).mean :=
  C1_per_row [[1,1,1,1,1],[1,1,1,1,1],[1,1,1,1,1]] 5 1 (Or.inl rfl)
    (by simp)
    (by
      intro c hc
      simp only [List.mem_cons, List.not_mem_nil, or_false] at hc
      rcases hc with rfl | rfl | rfl <;> rfl)
